import Mathlib

/-!
Verification of the keystroke-sequence matcher of react-keyboard-control.

The repository holds successive variants of the same engine.  Two are
embedded here, faithful to their sources:

* namespace `IndexTsx` — `src/src/index.tsx` (`useKeyboardControl`): the
  variant with the `allowWhen` enablement gate and the `"contextName"`
  exemption in `partialKeyboardEventMatch`; it has no early-completion
  option.
* namespace `Control` — the `useKeyboardControl(config)` variant of
  `src/unnamed/part_001` (whose matching core is textually identical to
  `src/unnamed/part_000`): the variant with the `allowEarlyCompletion`
  option and no enablement gate.

Helpers that are textually identical across the variants
(`getFirstFromArrayOrItem`, `removeFirstKeypressEventInHook`,
`keyboardEventTargetHasTag`, `basicFormatKey`, `orDefault`, the
`updateCandidatesAndMaybeExecuteHooks` loop) are defined once and shared.

JavaScript values appearing as `KeyboardEvent` attributes are modelled by
`JsValue` (strings, booleans, integers, `undefined`); `===` is structural
equality on that type.  A `Partial<KeyboardEvent>` descriptor is an
association list of attribute names to expected values; `o[k]` on an event
is lookup with `undefined` for an absent attribute, exactly as in JS.

The React state pair (`candidateHooks`, `currentSequence`) becomes an
explicit `MatcherState`; an event-handler invocation becomes a function
from the registered hook list, the state and the event to the new state
plus a `Resolution` describing which branch was taken (no-op on a modifier
key, reset, advance, or firing a hook).  Callbacks are opaque identifiers;
to reason about a callback that throws, the handler additionally takes a
`throwing` predicate on callback identifiers and returns a `HandlerResult`:
a throwing callback aborts the handler at the point of the call, escaping
with whatever state had been committed by then, exactly as a JS exception
would propagate out of the listener.
-/

namespace RKC

/-- A primitive JavaScript value stored in a `KeyboardEvent` attribute.
Strict equality `===` on these values is structural equality. -/
inductive JsValue
  | undefined
  | str (s : String)
  | bool (b : Bool)
  | num (n : Int)
deriving DecidableEq, Repr

/-- A `Partial<KeyboardEvent>`: an association list from attribute names to
expected values.  Attributes absent from the list are not constrained. -/
abbrev Descriptor := List (String × JsValue)

/-- An incoming keyboard event: its attribute bag plus the tag name of its
origin (`target`) element. -/
structure KeyboardEvent where
  attrs : List (String × JsValue)
  targetTag : String
deriving DecidableEq, Repr

/-- JS attribute access `o[k]`: an absent attribute reads as `undefined`. -/
def KeyboardEvent.get (o : KeyboardEvent) (k : String) : JsValue :=
  (List.lookup k o.attrs).getD .undefined

/-- The `Keystrokes` type of the source:
`Partial<KeyboardEvent> | Partial<KeyboardEvent>[]`. -/
inductive Keystrokes
  | single (d : Descriptor)
  | list (ds : List Descriptor)
deriving DecidableEq, Repr

/-- A registered hook.  Callbacks are opaque identifiers.  The structure
covers the union of the variants' interfaces: `KeypressHook` of
part_000/part_001 (no `allowWhen`) and `KeyboardHook` of src/src/index.tsx
(with `allowWhen`); `none` models an `undefined` optional field. -/
structure Hook where
  keyboardEvent : Keystrokes
  callback : Nat
  allowOnTextInput : Option Bool := none
  preventDefault : Option Bool := none
  allowWhen : Option Bool := none
deriving DecidableEq, Repr

/-- `const MODIFIERS = [META, ALT, CONTROL]` (identical in every variant;
note that `"Shift"` is not in the list). -/
def MODIFIERS : List String := ["Meta", "Alt", "Control"]

/-- `const TEXT_INPUT_TAGS = [INPUT_TAG, TEXTAREA_TAG]`. -/
def TEXT_INPUT_TAGS : List String := ["input", "textarea"]

/-- `orDefault(param, default_value)`: `param === undefined ? default_value
: param`. -/
def orDefault (param : Option α) (default_value : α) : α :=
  param.getD default_value

/-- JS truthiness of an optional boolean field (used for
`keypressHook.allowOnTextInput ? null : TEXT_INPUT_TAGS`): only an actual
`true` is truthy. -/
def truthyOpt (b : Option Bool) : Bool := b == some true

/-- JS truthiness of an attribute value (used for `if (e.metaKey)` etc.). -/
def jsTruthy : JsValue → Bool
  | .undefined => false
  | .str s => !(s == "")
  | .bool b => b
  | .num n => !(n == 0)

/-- The string JS would render a value as when pushed into `symbols`. -/
def jsValueAsString : JsValue → String
  | .str s => s
  | .bool true => "true"
  | .bool false => "false"
  | .num n => toString n
  | .undefined => "undefined"

/-- JS `String.prototype.toUpperCase()` on a tag name, written by
structural recursion over the characters (the library `String.toUpper` is
the same function but does not evaluate inside the kernel). -/
def toUpperCase (s : String) : String :=
  String.mk (s.data.map Char.toUpper)

/-- `keyboardEventTargetHasTag(e, tags)`: whether the origin element's tag
name equals one of `tags`, case-insensitively. -/
def keyboardEventTargetHasTag (e : KeyboardEvent) (tags : List String) : Bool :=
  tags.any fun tag => toUpperCase e.targetTag == toUpperCase tag

/-- `getFirstFromArrayOrItem`: a bare descriptor object is truthy and is
returned itself; an array (always truthy in JS, even `[]`) yields its first
element or `null` when empty. -/
def getFirstFromArrayOrItem : Keystrokes → Option Descriptor
  | .single d => some d
  | .list ds => ds.head?

/-- `removeFirstKeypressEventInHook` (identically
`removeFirstKeyboardEventInHook` in src/src/index.tsx): returns the hook
with its first pattern step consumed, `wasLastMatch`, and `keep`
(`newKeyboardEvent.length > 0`). -/
def removeFirstKeypressEventInHook (keypressHook : Hook) : Hook × Bool × Bool :=
  let p : List Descriptor × Bool :=
    match keypressHook.keyboardEvent with
    | .list [] => ([], false)
    | .list [_] => ([], true)
    | .list (_ :: d :: ds) => (d :: ds, false)
    | .single _ => ([], true)
  ({ keypressHook with keyboardEvent := .list p.1 }, p.2, !p.1.isEmpty)

/-- `MODIFIER_SYMBOLS` and `basicFormatKey(e)`: canonical modifier symbols
(meta, alt, control, shift) followed by `e.key`, joined with `""`. -/
def basicFormatKey (e : KeyboardEvent) : String :=
  let symbols : List String :=
    (if jsTruthy (e.get "metaKey") then ["⌘"] else []) ++
    (if jsTruthy (e.get "altKey") then ["⌥"] else []) ++
    (if jsTruthy (e.get "ctrlKey") then ["^"] else []) ++
    (if jsTruthy (e.get "shiftKey") then ["⇧"] else []) ++
    [jsValueAsString (e.get "key")]
  String.intercalate "" symbols

/-- The `TypedKey` interface: the raw event plus its display token. -/
structure TypedKey where
  event : KeyboardEvent
  basicRepresentation : String
deriving DecidableEq, Repr

/-- `keyboardEventToTypedKey`. -/
def keyboardEventToTypedKey (keyboardEvent : KeyboardEvent) : TypedKey :=
  { event := keyboardEvent, basicRepresentation := basicFormatKey keyboardEvent }

/-- The matcher's React state: `useState(keyboardHooks)` and
`useState([] as TypedKey[])`. -/
structure MatcherState where
  candidateHooks : List Hook
  currentSequence : List TypedKey
deriving DecidableEq, Repr

/-- Which branch of the handler resolved the event: the early return on a
modifier key, the zero-survivor reset, a firing (`executeKeypressHook`), or
a plain advance. -/
inductive Resolution
  | noop
  | reset
  | advanced
  | fired (hook : Hook)
deriving DecidableEq, Repr

/-- The outcome of one event-handler invocation: the new state together
with the branch taken, or — when a callback in the `throwing` set was
invoked — the exception escaping the handler, carrying the state as it
stood at the moment of the call (the statements after the call never ran). -/
inductive HandlerResult
  | ok (s : MatcherState) (r : Resolution)
  | thrown (s : MatcherState)
deriving DecidableEq, Repr

/-- The pool the handler filters: `currentSequence.length > 0 ?
candidateHooks : keyboardHooks` (identical in every variant). -/
def candidatePool (registered : List Hook) (s : MatcherState) : List Hook :=
  if s.currentSequence.length > 0 then s.candidateHooks else registered

/-- `updateCandidatesAndMaybeExecuteHooks` (textually identical in
src/src/index.tsx and src/unnamed/part_001): iterate over the surviving
candidates in order, accumulating `newCandidates`; on the first
`wasLastMatch` hook, invoke its callback and clear the sequence (an early
return, so `setCandidateHooks` is never reached on that path); if no hook
completed, append the event to the sequence and store `newCandidates`.
A throwing callback escapes before `setCurrentSequence([])` runs, so the
escape carries the untouched pre-event state. -/
def updateCandidatesAndMaybeExecuteHooks (throwing : Nat → Bool)
    (s : MatcherState) (e : KeyboardEvent) :
    List Hook → List Hook → HandlerResult
  | [], newCandidates =>
      .ok { candidateHooks := newCandidates,
            currentSequence := s.currentSequence ++ [keyboardEventToTypedKey e] }
        .advanced
  | candidateHook :: rest, newCandidates =>
      let r := removeFirstKeypressEventInHook candidateHook
      -- r = (updatedHook, wasLastMatch, keep); `if (keep)` push, then
      -- `if (wasLastMatch)` execute and return.
      let newCandidates' := if r.2.2 then newCandidates ++ [r.1] else newCandidates
      if r.2.1 then
        if throwing candidateHook.callback then .thrown s
        else .ok { s with currentSequence := [] } (.fired candidateHook)
      else
        updateCandidatesAndMaybeExecuteHooks throwing s e rest newCandidates'

end RKC

namespace RKC.Control

/-- `partialKeyboardEventMatch(o, p)` of src/unnamed/part_000 and
part_001: every attribute named in `p` must hold on `o` with a strictly
equal value. -/
def partialKeyboardEventMatch (o : KeyboardEvent) (p : Descriptor) : Bool :=
  p.all fun kv => kv.2 == o.get kv.1

/-- `hookMatch(event, hook, invalidTags)`: the partial match, and the
origin element's tag is not one of `invalidTags` (`null` disables the tag
check). -/
def hookMatch (event : KeyboardEvent) (hook : Descriptor)
    (invalidTags : Option (List String)) : Bool :=
  partialKeyboardEventMatch event hook &&
    !(match invalidTags with
      | some tags => keyboardEventTargetHasTag event tags
      | none => false)

/-- The filter predicate of `handleKeypressEvent`: the hook's first
remaining descriptor exists (is truthy) and `hookMatch` holds, with the
text-input tags disabled when `allowOnTextInput` is truthy. -/
def candidateFilter (e : KeyboardEvent) (keypressHook : Hook) : Bool :=
  match getFirstFromArrayOrItem keypressHook.keyboardEvent with
  | none => false
  | some expectedKeypress =>
      hookMatch e expectedKeypress
        (if truthyOpt keypressHook.allowOnTextInput then none
         else some TEXT_INPUT_TAGS)

/-- The initial matcher state of `useKeyboardControl(config)`:
`useState(config.keypressHooks)` and `useState([])`. -/
def initialState (keypressHooks : List Hook) : MatcherState :=
  { candidateHooks := keypressHooks, currentSequence := [] }

/-- `handleKeypressEvent` of the part_001 `useKeyboardControl(config)`
variant: discard pure modifier keys; filter the pool; on zero survivors
clear the sequence; on a sole survivor with `allowEarlyCompletion`
(`localCandidateHooks.length === 1`) execute it and clear the sequence;
otherwise run the update loop. -/
def handleKeypressEvent (throwing : Nat → Bool) (allowEarlyCompletion : Bool)
    (keypressHooks : List Hook) (s : MatcherState) (e : KeyboardEvent) :
    HandlerResult :=
  if MODIFIERS.any (fun m => e.get "key" == .str m) then .ok s .noop
  else
    match (candidatePool keypressHooks s).filter (candidateFilter e) with
    | [] => .ok { s with currentSequence := [] } .reset
    | first :: rest =>
        -- `localCandidateHooks.length === 1` is: the list is `first :: rest`
        -- with `rest` empty, and `localCandidateHooks[0]` is `first`.
        if allowEarlyCompletion && rest.isEmpty then
          if throwing first.callback then .thrown s
          else .ok { s with currentSequence := [] } (.fired first)
        else
          updateCandidatesAndMaybeExecuteHooks throwing s e (first :: rest) []

end RKC.Control

namespace RKC.IndexTsx

/-- `partialKeyboardEventMatch(o, p)` of src/src/index.tsx: every attribute
named in `p` must either be named `"contextName"` or hold on `o` with a
strictly equal value. -/
def partialKeyboardEventMatch (o : KeyboardEvent) (p : Descriptor) : Bool :=
  p.all fun kv => kv.1 == "contextName" || kv.2 == o.get kv.1

/-- `hookMatch` of src/src/index.tsx (same shape as the other variants but
built on this file's `partialKeyboardEventMatch`). -/
def hookMatch (event : KeyboardEvent) (hook : Descriptor)
    (invalidTags : Option (List String)) : Bool :=
  partialKeyboardEventMatch event hook &&
    !(match invalidTags with
      | some tags => keyboardEventTargetHasTag event tags
      | none => false)

/-- The filter predicate of `handleKeyboardEvent`:
`orDefault(keyboardHook.allowWhen, true) && expectedKeystroke &&
hookMatch(...)`. -/
def candidateFilter (e : KeyboardEvent) (keyboardHook : Hook) : Bool :=
  orDefault keyboardHook.allowWhen true &&
    (match getFirstFromArrayOrItem keyboardHook.keyboardEvent with
     | none => false
     | some expectedKeystroke =>
         hookMatch e expectedKeystroke
           (if truthyOpt keyboardHook.allowOnTextInput then none
            else some TEXT_INPUT_TAGS))

/-- Registration: `useKeyboardControl(keyboardHooks, eventType)` performs
no validation of the hooks; its `useState` initializers produce this state
for any input list. -/
def useKeyboardControl (keyboardHooks : List Hook) : MatcherState :=
  { candidateHooks := keyboardHooks, currentSequence := [] }

/-- `handleKeyboardEvent` of src/src/index.tsx: discard pure modifier keys;
filter the pool; on zero survivors clear the sequence; otherwise run the
update loop (this variant has no early-completion branch). -/
def handleKeyboardEvent (throwing : Nat → Bool) (keyboardHooks : List Hook)
    (s : MatcherState) (e : KeyboardEvent) :
    HandlerResult :=
  if MODIFIERS.any (fun m => e.get "key" == .str m) then .ok s .noop
  else
    match (candidatePool keyboardHooks s).filter (candidateFilter e) with
    | [] => .ok { s with currentSequence := [] } .reset
    | first :: rest =>
        updateCandidatesAndMaybeExecuteHooks throwing s e (first :: rest) []

end RKC.IndexTsx

namespace RKC

/-! Concrete fixtures used by counterexamples and witnesses. -/

/-- A one-attribute keystroke descriptor `{key: k}`. -/
def keyDescriptor (k : String) : Descriptor := [("key", .str k)]

/-- A plain keyboard event `{key: k}` originating from a `<div>`. -/
def plainEvent (k : String) : KeyboardEvent :=
  { attrs := [("key", .str k)], targetTag := "DIV" }

/-- The number of remaining steps of a pattern (a bare descriptor counts
as one step). -/
def patternLength : Keystrokes → Nat
  | .single _ => 1
  | .list ds => ds.length

/-- A three-step hook `[{key:"a"},{key:"b"},{key:"c"}]`. -/
def hookABC : Hook :=
  { keyboardEvent := .list [keyDescriptor "a", keyDescriptor "b", keyDescriptor "c"],
    callback := 1 }

/-- A two-step hook `[{key:"a"},{key:"b"}]`. -/
def hookAB : Hook :=
  { keyboardEvent := .list [keyDescriptor "a", keyDescriptor "b"], callback := 2 }

/-- The Pending state the matcher reaches after `hookAB` consumes
`{key:"a"}`: the candidate copy holds the remaining suffix. -/
def pendingAB : MatcherState :=
  { candidateHooks := [{ keyboardEvent := .list [keyDescriptor "b"], callback := 2 }],
    currentSequence := [keyboardEventToTypedKey (plainEvent "a")] }

/-- A single-step hook `[{key:"q"}]` given as a one-element list. -/
def hookQ1 : Hook := { keyboardEvent := .list [keyDescriptor "q"], callback := 3 }

/-- A single-step hook `{key:"q"}` given as a bare descriptor. -/
def hookQ2 : Hook := { keyboardEvent := .single (keyDescriptor "q"), callback := 4 }

/-- A hook with an empty pattern array. -/
def hookEmpty : Hook := { keyboardEvent := Keystrokes.list [], callback := 0 }

/-! Helper lemmas about the shared update loop. -/

/-- A throwing callback escapes `updateCandidatesAndMaybeExecuteHooks`
before any `setState` call of that loop has run, so the escaping state is
the untouched pre-event state. -/
theorem updateCandidates_thrown (thr : Nat → Bool) (s : MatcherState)
    (e : KeyboardEvent) :
    ∀ (l acc : List Hook) (s0 : MatcherState),
      updateCandidatesAndMaybeExecuteHooks thr s e l acc = .thrown s0 → s0 = s := by
  intro l
  induction l with
  | nil =>
      intro acc s0 h
      simp [updateCandidatesAndMaybeExecuteHooks] at h
  | cons a rest ih =>
      intro acc s0 h
      simp only [updateCandidatesAndMaybeExecuteHooks] at h
      cases hw : (removeFirstKeypressEventInHook a).2.1 with
      | true =>
          rw [if_pos hw] at h
          cases ht : thr a.callback with
          | true =>
              rw [if_pos ht] at h
              exact (HandlerResult.thrown.injEq .. ▸ h).symm
          | false =>
              rw [if_neg (by simp [ht])] at h
              exact absurd h (by simp)
      | false =>
          rw [if_neg (by simp [hw])] at h
          exact ih _ _ h

/-- The update loop fires exactly the first candidate, in pool order, whose
`removeFirstKeypressEventInHook` reports `wasLastMatch`; it clears the
sequence (the early return skips `setCandidateHooks`, leaving the stored
candidate list untouched) and invokes no other callback. -/
theorem updateCandidates_fires (thr : Nat → Bool) (s : MatcherState)
    (e : KeyboardEvent) :
    ∀ (l acc : List Hook) (c : Hook),
      l.find? (fun x => (removeFirstKeypressEventInHook x).2.1) = some c →
      thr c.callback = false →
      updateCandidatesAndMaybeExecuteHooks thr s e l acc
        = .ok { s with currentSequence := [] } (.fired c) := by
  intro l
  induction l with
  | nil =>
      intro acc c hfind _
      simp at hfind
  | cons a rest ih =>
      intro acc c hfind hthr
      cases hw : (removeFirstKeypressEventInHook a).2.1 with
      | true =>
          simp only [List.find?, hw, cond_true] at hfind
          obtain rfl : a = c := by injection hfind
          simp only [updateCandidatesAndMaybeExecuteHooks]
          rw [if_pos hw, if_neg (by simp [hthr])]
      | false =>
          simp only [List.find?, hw, cond_false] at hfind
          simp only [updateCandidatesAndMaybeExecuteHooks]
          rw [if_neg (by simp [hw])]
          exact ih _ _ hfind hthr

end RKC

namespace RKC

/-- C1, counterexample.  With `allowEarlyCompletion` enabled, a sole
surviving hook whose remaining pattern has three steps is fired immediately
on the first event — the handler's early-completion branch executes
`localCandidateHooks[0]` without inspecting the remaining pattern length,
so the claim's "only if its remaining pattern has length 1 … otherwise it
advances one step" is false on the code. -/
theorem c1_counterexample :
    Control.handleKeypressEvent (fun _ => false) true [hookABC]
        (Control.initialState [hookABC]) (plainEvent "a")
      = .ok { candidateHooks := [hookABC], currentSequence := [] } (.fired hookABC)
    ∧ patternLength hookABC.keyboardEvent = 3 := by
  constructor
  · decide
  · decide

/-- C1, amended.  When early completion is enabled and, after filtering,
exactly one candidate hook survives for the current event, the matcher
fires that hook immediately regardless of the length of its remaining
pattern (it never falls through to the advance step), invokes its action,
and clears the typed sequence. -/
theorem c1_early_completion_fires_sole_survivor (thr : Nat → Bool)
    (keypressHooks : List Hook) (s : MatcherState) (e : KeyboardEvent) (h : Hook)
    (hmod : MODIFIERS.any (fun m => e.get "key" == .str m) = false)
    (hsole : (candidatePool keypressHooks s).filter (Control.candidateFilter e) = [h])
    (hthr : thr h.callback = false) :
    Control.handleKeypressEvent thr true keypressHooks s e
      = .ok { s with currentSequence := [] } (.fired h) := by
  rw [Control.handleKeypressEvent, if_neg (by simp [hmod]), hsole]
  simp [hthr]

/-- C1, witness: the amended theorem applied to the concrete three-step
hook and first event. -/
theorem c1_witness :
    Control.handleKeypressEvent (fun _ => false) true [hookABC]
        (Control.initialState [hookABC]) (plainEvent "a")
      = .ok { Control.initialState [hookABC] with currentSequence := [] }
          (.fired hookABC) :=
  c1_early_completion_fires_sole_survivor (fun _ => false) [hookABC]
    (Control.initialState [hookABC]) (plainEvent "a") hookABC
    (by decide) (by decide) rfl

/-- C2, counterexample.  From a reachable Pending state (the two-step hook
advanced on `{key:"a"}`), consuming the completing `{key:"b"}` with a
throwing action escapes with the untouched pre-event state: the typed
sequence is still non-empty and the stale candidate copy of the hook that
already "fired" is still stored — the state transition is NOT committed
before the action is invoked (the source executes the callback first and
only then calls `setCurrentSequence([])`). -/
theorem c2_counterexample :
    IndexTsx.handleKeyboardEvent (fun _ => false) [hookAB]
        (IndexTsx.useKeyboardControl [hookAB]) (plainEvent "a")
      = .ok pendingAB .advanced
    ∧ IndexTsx.handleKeyboardEvent (fun _ => true) [hookAB] pendingAB (plainEvent "b")
      = .thrown pendingAB
    ∧ pendingAB.currentSequence ≠ [] := by
  refine ⟨by decide, by decide, by decide⟩

/-- C2, amended.  The action is invoked BEFORE the state transition is
committed: a throwing action escapes `handleKeyboardEvent` with exactly the
pre-event matcher state (candidates and typed sequence untouched), so a
throw during a completing event leaves the matcher Pending with residual
state tied to the hook that already fired. -/
theorem c2_throwing_action_leaves_pre_event_state (thr : Nat → Bool)
    (keyboardHooks : List Hook) (s s0 : MatcherState) (e : KeyboardEvent)
    (h : IndexTsx.handleKeyboardEvent thr keyboardHooks s e = .thrown s0) :
    s0 = s := by
  rw [IndexTsx.handleKeyboardEvent] at h
  split at h
  · exact absurd h (by simp)
  · split at h
    · exact absurd h (by simp)
    · exact updateCandidates_thrown thr s e _ _ _ h

/-- C2, witness: the amended theorem applied to the concrete throwing run
of `c2_counterexample`. -/
theorem c2_witness : pendingAB = pendingAB :=
  c2_throwing_action_leaves_pre_event_state (fun _ => true) [hookAB]
    pendingAB pendingAB (plainEvent "b") (by decide)

end RKC

namespace RKC

/-- C3.  When consuming one event completes one or more surviving hooks,
exactly one action is invoked: the survivors (`localCandidateHooks`, in
registration order) are scanned in order, and the handler returns on the
FIRST hook whose `removeFirstKeypressEventInHook` reports `wasLastMatch` —
`List.find?` of that predicate — firing it alone, clearing the typed
sequence (Idle), and discarding the still-pending survivors accumulated in
that tick (the early return never reaches `setCandidateHooks`).  The single
`Resolution.fired` result embodies "at most one hook action per consumed
event".  This holds for either value of `allowEarlyCompletion`: with a sole
surviving completing hook the early-completion branch fires that same
hook. -/
theorem c3_first_completed_wins (thr : Nat → Bool) (aec : Bool)
    (keypressHooks : List Hook) (s : MatcherState) (e : KeyboardEvent) (c : Hook)
    (hmod : MODIFIERS.any (fun m => e.get "key" == .str m) = false)
    (hfind : ((candidatePool keypressHooks s).filter (Control.candidateFilter e)).find?
        (fun x => (removeFirstKeypressEventInHook x).2.1) = some c)
    (hthr : thr c.callback = false) :
    Control.handleKeypressEvent thr aec keypressHooks s e
      = .ok { s with currentSequence := [] } (.fired c) := by
  rw [Control.handleKeypressEvent, if_neg (by simp [hmod])]
  cases hl : (candidatePool keypressHooks s).filter (Control.candidateFilter e) with
  | nil => rw [hl] at hfind; simp at hfind
  | cons first rest =>
      rw [hl] at hfind
      by_cases he : (aec && rest.isEmpty) = true
      · obtain ⟨haec, hrest⟩ := Bool.and_eq_true .. ▸ he
        obtain rfl : rest = [] := by simpa [List.isEmpty_iff] using hrest
        cases hw : (removeFirstKeypressEventInHook first).2.1 with
        | true =>
            simp only [List.find?, hw, cond_true] at hfind
            obtain rfl : first = c := by injection hfind
            simp [haec, hthr]
        | false =>
            simp only [List.find?, hw, cond_false, List.find?_nil] at hfind
            exact Option.noConfusion hfind
      · simp only [he, Bool.false_eq_true, if_false]
        exact updateCandidates_fires thr s e _ _ _ hfind hthr

/-- C3, witness: two hooks both completing on `{key:"q"}` (the second given
as a bare descriptor); the first registered one fires and only it. -/
theorem c3_witness :
    Control.handleKeypressEvent (fun _ => false) false [hookQ1, hookQ2]
        (Control.initialState [hookQ1, hookQ2]) (plainEvent "q")
      = .ok { Control.initialState [hookQ1, hookQ2] with currentSequence := [] }
          (.fired hookQ1) :=
  c3_first_completed_wins (fun _ => false) false [hookQ1, hookQ2]
    (Control.initialState [hookQ1, hookQ2]) (plainEvent "q") hookQ1
    (by decide) (by decide) rfl

/-- C4.  When an event survives filtering for zero hooks, the handler
clears the typed sequence and returns `Reset` without appending the event
(no fresh sequence is started in the same tick), and — because the pool
selector reads `currentSequence.length > 0` — the very next event is
evaluated against the full registered hook list, not the stale stored
candidate pool. -/
theorem c4_no_match_resets_cleanly (thr : Nat → Bool) (aec : Bool)
    (keypressHooks : List Hook) (s : MatcherState) (e : KeyboardEvent)
    (hmod : MODIFIERS.any (fun m => e.get "key" == .str m) = false)
    (hnone : (candidatePool keypressHooks s).filter (Control.candidateFilter e) = []) :
    Control.handleKeypressEvent thr aec keypressHooks s e
        = .ok { s with currentSequence := [] } .reset
    ∧ candidatePool keypressHooks { s with currentSequence := [] } = keypressHooks := by
  constructor
  · rw [Control.handleKeypressEvent, if_neg (by simp [hmod]), hnone]
  · simp [candidatePool]

/-- C4, witness: from the Pending state left by `hookAB` after `{key:"a"}`,
the event `{key:"z"}` matches no candidate. -/
theorem c4_witness :
    Control.handleKeypressEvent (fun _ => false) false [hookAB] pendingAB
        (plainEvent "z")
        = .ok { pendingAB with currentSequence := [] } .reset
    ∧ candidatePool [hookAB] { pendingAB with currentSequence := [] } = [hookAB] :=
  c4_no_match_resets_cleanly (fun _ => false) false [hookAB] pendingAB
    (plainEvent "z") (by decide) (by decide)

/-- C5.  For every matcher state, an event whose `key` is one of the
modifier keys `"Meta"`, `"Alt"`, `"Control"` is discarded by the handler's
first guard: the state (candidates and typed sequence) is returned
unchanged with the no-op resolution, which is distinct from `Reset`. -/
theorem c5_modifier_transparent (thr : Nat → Bool) (aec : Bool)
    (keypressHooks : List Hook) (s : MatcherState) (e : KeyboardEvent)
    (hmod : MODIFIERS.any (fun m => e.get "key" == .str m) = true) :
    Control.handleKeypressEvent thr aec keypressHooks s e = .ok s .noop
    ∧ Resolution.noop ≠ Resolution.reset := by
  refine ⟨?_, by decide⟩
  rw [Control.handleKeypressEvent, if_pos hmod]

/-- C5, witness: a bare `{key:"Meta"}` event consumed mid-sequence (in the
Pending state `pendingAB`) leaves the state untouched. -/
theorem c5_witness :
    Control.handleKeypressEvent (fun _ => false) false [hookAB] pendingAB
        (plainEvent "Meta") = .ok pendingAB .noop
    ∧ Resolution.noop ≠ Resolution.reset :=
  c5_modifier_transparent (fun _ => false) false [hookAB] pendingAB
    (plainEvent "Meta") (by decide)

end RKC

namespace RKC

/-- The two-step hook of the dynamic-disable scenario, enabled
(`allowWhen: true`) at registration. -/
def hookSeqOn : Hook :=
  { keyboardEvent := .list [keyDescriptor "a", keyDescriptor "b"], callback := 7,
    allowWhen := some true }

/-- The same hook as supplied by the caller on the next render, now with
`allowWhen: false`. -/
def hookSeqOff : Hook :=
  { keyboardEvent := .list [keyDescriptor "a", keyDescriptor "b"], callback := 7,
    allowWhen := some false }

/-- The Pending state after `hookSeqOn` advanced on `{key:"a"}`: the stored
candidate copy carries the `allowWhen` value captured at that advance. -/
def pendingSeq : MatcherState :=
  { candidateHooks := [{ keyboardEvent := .list [keyDescriptor "b"], callback := 7,
                         allowWhen := some true }],
    currentSequence := [keyboardEventToTypedKey (plainEvent "a")] }

/-- C6, counterexample.  A hook advances while enabled; the caller then
disables it (`allowWhen: false` in the registered list) between the two
events of its own sequence.  On the second event the Pending pool is the
stored candidate copy, whose frozen `allowWhen` is still `true`, so the
hook is NOT excluded — it survives filtering and fires — refuting "a hook
disabled between two events of its own in-progress sequence is excluded
from that event's candidate pool". -/
theorem c6_counterexample :
    IndexTsx.handleKeyboardEvent (fun _ => false) [hookSeqOn]
        (IndexTsx.useKeyboardControl [hookSeqOn]) (plainEvent "a")
      = .ok pendingSeq .advanced
    ∧ orDefault hookSeqOff.allowWhen true = false
    ∧ IndexTsx.handleKeyboardEvent (fun _ => false) [hookSeqOff] pendingSeq
        (plainEvent "b")
      = .ok { pendingSeq with currentSequence := [] }
          (.fired { keyboardEvent := .list [keyDescriptor "b"], callback := 7,
                    allowWhen := some true }) := by
  refine ⟨by decide, by decide, by decide⟩

/-- C6, amended.  The `allowWhen` gate is evaluated on every event, but
against the hook objects of that event's pool: no hook whose recorded gate
is false ever survives filtering, and when the matcher is Idle the pool is
the fresh registered list itself (so a hook disabled at event time cannot
begin a sequence, and it is excluded by filtering, not removed from the
registry).  Mid-sequence, however, the Pending pool holds candidate copies
whose gates were captured at the previous advance. -/
theorem c6_gate_filters_pool (keyboardHooks : List Hook) (s : MatcherState)
    (e : KeyboardEvent) (h : Hook)
    (hmem : h ∈ (candidatePool keyboardHooks s).filter (IndexTsx.candidateFilter e)) :
    orDefault h.allowWhen true = true
    ∧ (s.currentSequence = [] → h ∈ keyboardHooks) := by
  rw [List.mem_filter] at hmem
  obtain ⟨hpool, hpred⟩ := hmem
  constructor
  · rw [IndexTsx.candidateFilter, Bool.and_eq_true] at hpred
    exact hpred.1
  · intro hidle
    rw [candidatePool, hidle] at hpool
    simpa using hpool

/-- C6, witness: the amended theorem applied to the Idle state with the
enabled hook, which does survive filtering on `{key:"a"}`. -/
theorem c6_witness :
    orDefault hookSeqOn.allowWhen true = true
    ∧ ((IndexTsx.useKeyboardControl [hookSeqOn]).currentSequence = []
        → hookSeqOn ∈ [hookSeqOn]) :=
  c6_gate_filters_pool [hookSeqOn] (IndexTsx.useKeyboardControl [hookSeqOn])
    (plainEvent "a") hookSeqOn (by decide)

/-- The event predicate exactly as the spec words it: every attribute named
in the descriptor must be present on the event with a strictly equal value
(no exemptions).  Stated for comparison against the implementation's
predicate. -/
def matchesPerSpec (o : KeyboardEvent) (p : Descriptor) : Bool :=
  p.all fun kv => kv.2 == o.get kv.1

/-- An event whose `contextName` attribute is `"y"`. -/
def eventCtxY : KeyboardEvent :=
  { attrs := [("contextName", .str "y")], targetTag := "DIV" }

/-- A descriptor demanding `contextName: "x"`. -/
def descCtxX : Descriptor := [("contextName", .str "x")]

/-- C7, counterexample.  `partialKeyboardEventMatch` of src/src/index.tsx
skips any descriptor key named `"contextName"`: a descriptor demanding
`contextName: "x"` matches an event whose `contextName` is `"y"`, although
the attribute is named in the descriptor and its value differs — so "true
iff every attribute named in the descriptor is present with a strictly
equal value" is false on this variant. -/
theorem c7_counterexample :
    IndexTsx.partialKeyboardEventMatch eventCtxY descCtxX = true
    ∧ matchesPerSpec eventCtxY descCtxX = false := by
  refine ⟨by decide, by decide⟩

/-- C7, amended.  The predicate returns true iff every attribute named in
the descriptor is either named `"contextName"` — which is exempt from
comparison — or is present on the event with a strictly equal value (an
attribute absent from the event reads as `undefined` and fails equality
against any defined expected value). -/
theorem c7_match_iff (o : KeyboardEvent) (p : Descriptor) :
    IndexTsx.partialKeyboardEventMatch o p = true
      ↔ ∀ kv ∈ p, kv.1 = "contextName" ∨ kv.2 = o.get kv.1 := by
  simp [IndexTsx.partialKeyboardEventMatch, List.all_eq_true]

end RKC

namespace RKC

/-- C8.  Text-entry gating, at the filter predicate of the handler.  For an
event originating from a text-entry element (tag in `TEXT_INPUT_TAGS`,
compared case-insensitively): a hook whose `allowOnTextInput` is not
`true` (false or unset) fails the filter — so it never matches and, being
absent from `localCandidateHooks` for every state, never advances — while
the otherwise-identical hook with `allowOnTextInput: true` matches exactly
as the plain attribute predicate on its first remaining descriptor
dictates, the origin element playing no role. -/
theorem c8_text_entry_gating (e : KeyboardEvent) (h : Hook)
    (htag : keyboardEventTargetHasTag e TEXT_INPUT_TAGS = true) :
    (truthyOpt h.allowOnTextInput = false →
        Control.candidateFilter e h = false
        ∧ ∀ (keypressHooks : List Hook) (s : MatcherState),
            h ∉ (candidatePool keypressHooks s).filter (Control.candidateFilter e))
    ∧ Control.candidateFilter e { h with allowOnTextInput := some true }
        = (match getFirstFromArrayOrItem h.keyboardEvent with
           | some d => Control.partialKeyboardEventMatch e d
           | none => false) := by
  constructor
  · intro hoff
    have hfalse : Control.candidateFilter e h = false := by
      rw [Control.candidateFilter]
      cases hfst : getFirstFromArrayOrItem h.keyboardEvent with
      | none => rfl
      | some d => simp [Control.hookMatch, hoff, htag]
    refine ⟨hfalse, fun keypressHooks s hmem => ?_⟩
    rw [List.mem_filter] at hmem
    rw [hfalse] at hmem
    exact absurd hmem.2 (by simp)
  · rw [Control.candidateFilter]
    cases hfst : getFirstFromArrayOrItem h.keyboardEvent with
    | none => simp [show getFirstFromArrayOrItem
        ({ h with allowOnTextInput := some true } : Hook).keyboardEvent = none from hfst]
    | some d => simp [show getFirstFromArrayOrItem
        ({ h with allowOnTextInput := some true } : Hook).keyboardEvent = some d from hfst,
        Control.hookMatch, truthyOpt]

/-- The single-step hook `{key:"q"}` with text input disallowed (unset). -/
def hookQplain : Hook := { keyboardEvent := .single (keyDescriptor "q"), callback := 5 }

/-- A `{key:"q"}` event typed inside an `<input>` element. -/
def eventQonInput : KeyboardEvent :=
  { attrs := [("key", .str "q")], targetTag := "input" }

/-- C8, witness: on the concrete `<input>`-originated event, `hookQplain`
is filtered out while its `allowOnTextInput: true` twin matches exactly as
the plain predicate (which is true here). -/
theorem c8_witness :
    (truthyOpt hookQplain.allowOnTextInput = false →
        Control.candidateFilter eventQonInput hookQplain = false
        ∧ ∀ (keypressHooks : List Hook) (s : MatcherState),
            hookQplain
              ∉ (candidatePool keypressHooks s).filter
                  (Control.candidateFilter eventQonInput))
    ∧ Control.candidateFilter eventQonInput
          { hookQplain with allowOnTextInput := some true }
        = (match getFirstFromArrayOrItem hookQplain.keyboardEvent with
           | some d => Control.partialKeyboardEventMatch eventQonInput d
           | none => false) :=
  c8_text_entry_gating eventQonInput hookQplain (by decide)

/-- C9, counterexample.  The source has no registration-time validation and
no `InvalidHookError` of any kind: registering the empty-pattern hook
produces the ordinary initial state containing it, and during `consume` the
hook is silently invisible — `getFirstFromArrayOrItem` of its pattern is
null, it is filtered out, and the event resolves as a plain `Reset`.  The
violation is thus silently ignored and handled per-event, refuting the
claim. -/
theorem c9_counterexample :
    IndexTsx.useKeyboardControl [hookEmpty]
      = { candidateHooks := [hookEmpty], currentSequence := [] }
    ∧ IndexTsx.handleKeyboardEvent (fun _ => false) [hookEmpty]
        (IndexTsx.useKeyboardControl [hookEmpty]) (plainEvent "q")
      = .ok { candidateHooks := [hookEmpty], currentSequence := [] } .reset := by
  refine ⟨by decide, by decide⟩

/-- C9, amended.  Registering a hook with an empty pattern raises no error:
`useKeyboardControl` accepts any hook list unchanged into its initial
state, and an empty-pattern hook is silently excluded from every event's
candidate pool during consume (its first remaining descriptor is null), so
it can never match or fire. -/
theorem c9_empty_pattern_silently_ignored (h : Hook)
    (hp : h.keyboardEvent = Keystrokes.list [])
    (keyboardHooks : List Hook) (e : KeyboardEvent) :
    IndexTsx.useKeyboardControl (h :: keyboardHooks)
      = { candidateHooks := h :: keyboardHooks, currentSequence := [] }
    ∧ IndexTsx.candidateFilter e h = false := by
  refine ⟨rfl, ?_⟩
  rw [IndexTsx.candidateFilter, hp]
  simp [getFirstFromArrayOrItem]

/-- C9, witness: the amended theorem at the concrete empty-pattern hook. -/
theorem c9_witness :
    IndexTsx.useKeyboardControl [hookEmpty]
      = { candidateHooks := [hookEmpty], currentSequence := [] }
    ∧ IndexTsx.candidateFilter (plainEvent "q") hookEmpty = false :=
  c9_empty_pattern_silently_ignored hookEmpty rfl [] (plainEvent "q")

end RKC

namespace RKC

/-- Pattern normalization: a bare descriptor becomes the one-element list
holding it; list patterns are unchanged. -/
def normKeystrokes : Keystrokes → Keystrokes
  | .single d => .list [d]
  | .list ds => .list ds

/-- Hook normalization: normalize the pattern, keep every other field. -/
def normHook (h : Hook) : Hook :=
  { h with keyboardEvent := normKeystrokes h.keyboardEvent }

/-- State normalization: normalize every stored candidate copy. -/
def normState (s : MatcherState) : MatcherState :=
  { s with candidateHooks := s.candidateHooks.map normHook }

/-- Resolution normalization: normalize the fired hook's pattern. -/
def normResolution : Resolution → Resolution
  | .fired h => .fired (normHook h)
  | r => r

/-- Handler-outcome normalization. -/
def normHandlerResult : HandlerResult → HandlerResult
  | .ok s r => .ok (normState s) (normResolution r)
  | .thrown s => .thrown (normState s)

theorem getFirst_norm (ks : Keystrokes) :
    getFirstFromArrayOrItem (normKeystrokes ks) = getFirstFromArrayOrItem ks := by
  cases ks <;> rfl

theorem candidateFilter_norm (e : KeyboardEvent) (h : Hook) :
    Control.candidateFilter e (normHook h) = Control.candidateFilter e h := by
  rw [Control.candidateFilter, Control.candidateFilter]
  have h1 : getFirstFromArrayOrItem (normHook h).keyboardEvent
      = getFirstFromArrayOrItem h.keyboardEvent := getFirst_norm h.keyboardEvent
  rw [h1]
  rfl

theorem removeFirst_norm (h : Hook) :
    removeFirstKeypressEventInHook (normHook h)
      = (normHook (removeFirstKeypressEventInHook h).1,
         (removeFirstKeypressEventInHook h).2) := by
  rcases h with ⟨ks, cb, a, p, w⟩
  cases ks with
  | single d => rfl
  | list ds =>
      cases ds with
      | nil => rfl
      | cons d1 rest =>
          cases rest with
          | nil => rfl
          | cons d2 rest2 => rfl

theorem candidatePool_norm (hooks : List Hook) (s : MatcherState) :
    candidatePool (hooks.map normHook) (normState s)
      = (candidatePool hooks s).map normHook := by
  by_cases hc : s.currentSequence.length > 0 <;>
    simp [candidatePool, normState, hc]

theorem filter_norm (e : KeyboardEvent) (l : List Hook) :
    (l.map normHook).filter (Control.candidateFilter e)
      = (l.filter (Control.candidateFilter e)).map normHook := by
  induction l with
  | nil => rfl
  | cons a t ih =>
      simp only [List.map_cons, List.filter_cons, candidateFilter_norm]
      cases hc : Control.candidateFilter e a <;> simp [ih]

theorem updateCandidates_norm (thr : Nat → Bool) (s : MatcherState)
    (e : KeyboardEvent) :
    ∀ (l acc : List Hook),
      updateCandidatesAndMaybeExecuteHooks thr (normState s) e
          (l.map normHook) (acc.map normHook)
        = normHandlerResult (updateCandidatesAndMaybeExecuteHooks thr s e l acc) := by
  intro l
  induction l with
  | nil =>
      intro acc
      simp [updateCandidatesAndMaybeExecuteHooks, normHandlerResult, normState,
        normResolution]
  | cons a t ih =>
      intro acc
      simp only [List.map_cons, updateCandidatesAndMaybeExecuteHooks,
        removeFirst_norm]
      have hcb : (normHook a).callback = a.callback := rfl
      cases hw : (removeFirstKeypressEventInHook a).2.1 with
      | true =>
          rw [if_pos rfl, if_pos rfl]
          cases ht : thr a.callback with
          | true => simp [hcb, ht, normHandlerResult]
          | false =>
              simp [hcb, ht, normHandlerResult, normResolution, normState]
      | false =>
          rw [if_neg Bool.false_ne_true, if_neg Bool.false_ne_true]
          cases hk : (removeFirstKeypressEventInHook a).2.2 with
          | true =>
              rw [if_pos rfl, if_pos rfl]
              have hmapp : List.map normHook acc
                    ++ [normHook (removeFirstKeypressEventInHook a).1]
                  = List.map normHook (acc ++ [(removeFirstKeypressEventInHook a).1]) := by
                simp
              rw [hmapp]
              exact ih (acc ++ [(removeFirstKeypressEventInHook a).1])
          | false =>
              rw [if_neg Bool.false_ne_true, if_neg Bool.false_ne_true]
              exact ih acc

/-- C10.  Supplying a pattern as a single bare descriptor is
observationally equivalent to supplying it as the one-element list holding
that descriptor: replacing every hook's bare-descriptor pattern by the
corresponding singleton list (in the registered list and in the stored
candidates) commutes with the event handler — the same events are matched
at each step, the same hook (same callback) fires on the same event, a
throwing run escapes with the corresponding state, and the resulting
matcher states correspond under the same replacement. -/
theorem c10_single_descriptor_equiv_singleton_list (thr : Nat → Bool)
    (aec : Bool) (keypressHooks : List Hook) (s : MatcherState)
    (e : KeyboardEvent) :
    Control.handleKeypressEvent thr aec (keypressHooks.map normHook)
        (normState s) e
      = normHandlerResult (Control.handleKeypressEvent thr aec keypressHooks s e) := by
  rw [Control.handleKeypressEvent, Control.handleKeypressEvent,
    candidatePool_norm, filter_norm]
  by_cases hm : (MODIFIERS.any fun m => e.get "key" == JsValue.str m) = true
  · simp [hm, normHandlerResult, normResolution]
  · rw [if_neg hm, if_neg hm]
    cases hfl : (candidatePool keypressHooks s).filter (Control.candidateFilter e) with
    | nil => simp [normHandlerResult, normResolution, normState]
    | cons first rest =>
        simp only [List.map_cons]
        have hemp : (rest.map normHook).isEmpty = rest.isEmpty := by
          cases rest <;> rfl
        by_cases he : (aec && rest.isEmpty) = true
        · rw [if_pos (by simpa [hemp] using he), if_pos he]
          have hcb : (normHook first).callback = first.callback := rfl
          cases ht : thr first.callback with
          | true => simp [hcb, ht, normHandlerResult]
          | false => simp [hcb, ht, normHandlerResult, normResolution, normState]
        · rw [if_neg (by simpa [hemp] using he), if_neg he]
          have := updateCandidates_norm thr s e (first :: rest) []
          simpa using this

end RKC
